import Mathlib

set_option maxRecDepth 4000

/-!
Shallow embedding of the dfmodules DataFlowOrchestrator core:
`TriggerRecordBuilderData` (per-worker in-flight tracker, from
src/src/TriggerRecordBuilderData.cpp) and the `DataFlowOrchestrator`
dispatcher and token receiver (from src/unnamed/part_000,
DataFlowOrchestrator.cpp).

Timestamps are natural-number microsecond counts of the monotonic clock,
passed explicitly where the source reads the clock.  The opaque JSON
metadata accumulator is a type parameter `M`.  Stateful methods are
embedded as functions returning the outcome together with the post-state;
a thrown exception is represented by an error outcome paired with the
state as it is at the throw point.
-/

/-- Fields of a trigger decision visible to the core (dfmessages). -/
structure TriggerDecision where
  trigger_number : Nat
  run_number : Nat
  deriving DecidableEq

/-- Modelled from the spec: the AssignedTriggerDecision record (its header is
not among the sources) binds a trigger decision to a worker
`connection_name`, stamped with the dispatch-time `assigned_time`. -/
structure AssignedTriggerDecision where
  decision : TriggerDecision
  connection_name : String
  assigned_time : Nat
  deriving DecidableEq

/-- Exception kinds thrown by the embedded code. -/
inductive DfoErr where
  | thresholdsNotConsistent
  | noSlotsAvailable
  | assignedTriggerDecisionNotFound
  deriving DecidableEq

/-- State of one TriggerRecordBuilderData (per-worker load record). -/
structure TriggerRecordBuilderData (M : Type) where
  busy_threshold : Nat
  free_threshold : Nat
  is_busy : Bool
  in_error : Bool
  connection_name : String
  inflight : List AssignedTriggerDecision
  latency_info : List (Nat × Nat)
  metadata : M
  deriving DecidableEq

/-- Two-argument constructor `TriggerRecordBuilderData(connection_name,
busy_threshold)`: both thresholds are set to `busy_threshold`. -/
def TriggerRecordBuilderData.ctorB (M : Type) (name : String) (busy_threshold : Nat)
    (m0 : M) : TriggerRecordBuilderData M :=
  { busy_threshold := busy_threshold
    free_threshold := busy_threshold
    is_busy := false
    in_error := false
    connection_name := name
    inflight := []
    latency_info := []
    metadata := m0 }

/-- Three-argument constructor `TriggerRecordBuilderData(connection_name,
busy_threshold, free_threshold)`.  As in the source, the member
`m_free_threshold` is initialized from `busy_threshold` (the
`free_threshold` parameter is only used by the consistency check), and
`busy_threshold < free_threshold` throws `DFOThresholdsNotConsistent`. -/
def TriggerRecordBuilderData.ctorBF (M : Type) (name : String) (busy_threshold : Nat)
    (free_threshold : Nat) (m0 : M) : Except DfoErr (TriggerRecordBuilderData M) :=
  if busy_threshold < free_threshold then
    Except.error DfoErr.thresholdsNotConsistent
  else
    Except.ok
      { busy_threshold := busy_threshold
        free_threshold := busy_threshold
        is_busy := false
        in_error := false
        connection_name := name
        inflight := []
        latency_info := []
        metadata := m0 }

/-- Modelled from the spec (declared in the missing header):
`has_slot()` returns true iff the worker is neither busy nor in error. -/
def TriggerRecordBuilderData.has_slot {M : Type} (s : TriggerRecordBuilderData M) : Bool :=
  !s.is_busy && !s.in_error

/-- Modelled from the spec (declared in the missing header): `set_in_error`
stores the flag. -/
def TriggerRecordBuilderData.set_in_error {M : Type} (s : TriggerRecordBuilderData M)
    (flag : Bool) : TriggerRecordBuilderData M :=
  { s with in_error := flag }

/-- The erase loop inside `extract_assignment`: remove and return the first
element of the list whose trigger number matches, leaving the rest in
order. -/
def extractFirst : List AssignedTriggerDecision → Nat →
    Option AssignedTriggerDecision × List AssignedTriggerDecision
  | [], _ => (none, [])
  | a :: rest, tn =>
    if a.decision.trigger_number = tn then (some a, rest)
    else
      let r := extractFirst rest tn
      (r.1, a :: r.2)

/-- Embedding of `TriggerRecordBuilderData::extract_assignment`: erase the first matching
assignment (if any), then unconditionally clear `m_is_busy` when the new
inflight size is below the stored free threshold. -/
def TriggerRecordBuilderData.extract_assignment {M : Type} (s : TriggerRecordBuilderData M)
    (trigger_number : Nat) :
    Option AssignedTriggerDecision × TriggerRecordBuilderData M :=
  let r := extractFirst s.inflight trigger_number
  let is_busy1 := if r.2.length < s.free_threshold then false else s.is_busy
  (r.1, { s with inflight := r.2, is_busy := is_busy1 })

/-- Embedding of `TriggerRecordBuilderData::add_assignment`: throws `NoSlotsAvailable`
when `in_error` is set (state untouched); otherwise appends the assignment
and sets `m_is_busy` when the new size reaches the busy threshold. -/
def TriggerRecordBuilderData.add_assignment {M : Type} (s : TriggerRecordBuilderData M)
    (assignment : AssignedTriggerDecision) :
    Option DfoErr × TriggerRecordBuilderData M :=
  if s.in_error then (some DfoErr.noSlotsAvailable, s)
  else
    let inflight1 := s.inflight ++ [assignment]
    let is_busy1 := if s.busy_threshold ≤ inflight1.length then true else s.is_busy
    (none, { s with inflight := inflight1, is_busy := is_busy1 })

/-- Embedding of `TriggerRecordBuilderData::complete_assignment`: extract the matching
assignment; throw `AssignedTriggerDecisionNotFound` when there is none
(the busy-flag update performed by the extraction persists).  On success
compute the service time `now - assigned_time`, append
`(now, service_time)` to the latency window popping the front when the
size exceeds 1000, and apply the metadata function when one is given. -/
def TriggerRecordBuilderData.complete_assignment {M : Type} (s : TriggerRecordBuilderData M)
    (trigger_number : Nat) (now : Nat) (metadata_fun : Option (M → M)) :
    Option Nat × TriggerRecordBuilderData M :=
  let r := s.extract_assignment trigger_number
  match r.1 with
  | none => (none, r.2)
  | some a =>
    let time := now - a.assigned_time
    let lat1 := r.2.latency_info ++ [(now, time)]
    let lat2 := if 1000 < lat1.length then lat1.tail else lat1
    let meta1 :=
      match metadata_fun with
      | some f => f r.2.metadata
      | none => r.2.metadata
    (some time, { r.2 with latency_info := lat2, metadata := meta1 })

/-- Embedding of `TriggerRecordBuilderData::average_latency`: walk the latency window
from newest to oldest, stop at the first sample whose completion time is
older than `since`, and return the sum of the included service times
divided by their count (integer division of the microsecond counts). -/
def TriggerRecordBuilderData.average_latency {M : Type} (s : TriggerRecordBuilderData M)
    (since : Nat) : Nat :=
  ((s.latency_info.reverse.takeWhile (fun e => !(e.1 < since))).map Prod.snd).sum
    / (s.latency_info.reverse.takeWhile (fun e => !(e.1 < since))).length

/-- Embedding of `TriggerRecordBuilderData::make_assignment` (assigned_time modelled from
the spec: the Assignment is timestamped at dispatch time). -/
def TriggerRecordBuilderData.make_assignment {M : Type} (s : TriggerRecordBuilderData M)
    (decision : TriggerDecision) (now : Nat) : AssignedTriggerDecision :=
  { decision := decision, connection_name := s.connection_name, assigned_time := now }

/-! The DataFlowOrchestrator keeps `m_dataflow_availability`, a
`std::map<std::string, TriggerRecordBuilderData>`, embedded as an
association list kept sorted by key.  `opIndex` is `operator[]`: it
default-inserts (at the sorted position) when the key is absent.
`lookupKey` is `find`-style lookup, `updateKey` rewrites the mapped value
in place.  The round-robin iterator is embedded as the index of the
element it points at. -/

/-- Lookup of the value mapped to a key in the association list. -/
def lookupKey {W : Type} (k : String) : List (String × W) → Option W
  | [] => none
  | (k1, w) :: rest => if k = k1 then some w else lookupKey k rest

/-- Rewrite the value mapped to a key (no effect when the key is absent). -/
def updateKey {W : Type} (k : String) (f : W → W) : List (String × W) → List (String × W)
  | [] => []
  | (k1, w) :: rest =>
    if k = k1 then (k1, f w) :: rest else (k1, w) :: updateKey k f rest

/-- The `std::map::operator[]` key step: insert a default-constructed value at
the sorted position when the key is absent; leave the map unchanged
otherwise. -/
def opIndex {W : Type} (k : String) (d : W) : List (String × W) → List (String × W)
  | [] => [(k, d)]
  | (k1, w) :: rest =>
    if k = k1 then (k1, w) :: rest
    else if k < k1 then (k, d) :: (k1, w) :: rest
    else (k1, w) :: opIndex k d rest

/-- Completion token (`dfmessages::TriggerDecisionToken`) fields used by the
orchestrator. -/
structure Token where
  run_number : Nat
  trigger_number : Nat
  decision_destination : String
  deriving DecidableEq

/-- DataFlowOrchestrator state relevant to the embedded claims. -/
structure DFOState (M : Type) where
  availability : List (String × TriggerRecordBuilderData M)
  cursor : Nat
  run_number : Nat
  received_tokens : Nat
  metadata_function : Option (M → M)
  td_send_retries : Nat

/-- Availability-map effect of a matching-run token inside
`receive_trigger_complete_token`: the worker is reached through
`operator[]` (which default-inserts an entry when `decision_destination`
is unknown — the source has no unknown-worker check), then
`complete_assignment` runs with `AssignedTriggerDecisionNotFound` caught
and discarded, and a set `in_error` flag is cleared afterwards. -/
def tokenAvail {M : Type} (dflt : TriggerRecordBuilderData M) (now : Nat)
    (mfn : Option (M → M)) (avail : List (String × TriggerRecordBuilderData M))
    (tok : Token) : List (String × TriggerRecordBuilderData M) :=
  let avail0 := opIndex tok.decision_destination dflt avail
  let w0 := (lookupKey tok.decision_destination avail0).getD dflt
  let r := w0.complete_assignment tok.trigger_number now mfn
  let avail1 := updateKey tok.decision_destination (fun _ => r.2) avail0
  let w1 := (lookupKey tok.decision_destination avail1).getD dflt
  if w1.in_error then
    updateKey tok.decision_destination (fun w => w.set_in_error false) avail1
  else avail1

/-- Embedding of `DataFlowOrchestrator::receive_trigger_complete_token`.  The token
counter is always incremented; nothing else happens unless the run number
matches; otherwise the availability map is transformed by `tokenAvail`. -/
def receive_trigger_complete_token {M : Type} (dflt : TriggerRecordBuilderData M)
    (now : Nat) (st : DFOState M) (token : Token) : DFOState M :=
  let st1 := { st with received_tokens := st.received_tokens + 1 }
  if token.run_number = st1.run_number then
    { st1 with availability := tokenAvail dflt now st1.metadata_function st1.availability token }
  else st1

/-- Loop body of `DataFlowOrchestrator::find_slot`, with the remaining
number of tries as fuel (the source counts `tries` upward while
`tries < size`).  Each step first advances the iterator, wrapping from
`end` to `begin`, and stops at the first worker whose `has_slot()` is
true. -/
def find_slot_loop {M : Type} (avail : List (String × TriggerRecordBuilderData M))
    (decision : TriggerDecision) (now : Nat) :
    Nat → Nat → Option AssignedTriggerDecision × Nat
  | cursor, 0 => (none, cursor)
  | cursor, remaining + 1 =>
    let c1 := if cursor + 1 = avail.length then 0 else cursor + 1
    match avail[c1]? with
    | some kw =>
      if kw.2.has_slot then (some (kw.2.make_assignment decision now), c1)
      else find_slot_loop avail decision now c1 remaining
    | none => (none, c1)

/-- Embedding of `DataFlowOrchestrator::find_slot`: round-robin scan over at most
`size` workers starting from the cursor successor; returns the assignment
(or none) and the final cursor position. -/
def find_slot {M : Type} (avail : List (String × TriggerRecordBuilderData M))
    (decision : TriggerDecision) (now : Nat) (cursor : Nat) :
    Option AssignedTriggerDecision × Nat :=
  find_slot_loop avail decision now cursor avail.length

/-- Whether the worker stored at position `i` of the availability map has a
free slot (false when the position is out of range). -/
def hasSlotAt {M : Type} (avail : List (String × TriggerRecordBuilderData M))
    (i : Nat) : Bool :=
  match avail[i]? with
  | some kw => kw.2.has_slot
  | none => false

/-- Send retry loop inside `DataFlowOrchestrator::dispatch`:
`do { try send } while (!sent && run_flag && --retries > 0)`.  `sendOk i`
is the outcome the transport gives to attempt `i`; the result is
`wasSentSuccessfully`. -/
def sendLoop (sendOk : Nat → Bool) (run_flag : Bool) : Nat → Nat → Bool
  | i, retries =>
    let ok := sendOk i
    if h : ok = false ∧ run_flag = true ∧ 0 < retries - 1 then
      sendLoop sendOk run_flag (i + 1) (retries - 1)
    else ok
  termination_by _ retries => retries
  decreasing_by
    exact Nat.sub_lt (Nat.lt_of_lt_of_le h.2.2 (Nat.sub_le _ _)) Nat.one_pos

/-- Faults of the embedded code: dereferencing the null assignment. -/
inductive Fault where
  | nullDereference
  deriving DecidableEq

/-- Embedding of `DataFlowOrchestrator::dispatch`: serializes `assignment->decision`
before anything else, so a null assignment is dereferenced — a fault.
Otherwise runs the retry loop and reports `wasSentSuccessfully`. -/
def dispatch (sendOk : Nat → Bool) (retries : Nat) (run_flag : Bool) :
    Option AssignedTriggerDecision → Except Fault Bool
  | none => Except.error Fault.nullDereference
  | some _ => Except.ok (sendLoop sendOk run_flag 0 retries)

/-- Shutdown drain at the end of `DataFlowOrchestrator::do_work`: while a
decision can still be popped, run `find_slot` and pass its result straight
to `dispatch`, ignoring the outcome.  The remaining content of the
DecisionSource is the list argument; the run flag is already false. -/
def drainLoop {M : Type} (sendOk : TriggerDecision → Nat → Bool) (now : Nat)
    (st : DFOState M) : List TriggerDecision → Except Fault (DFOState M)
  | [] => Except.ok st
  | d :: rest =>
    let r := find_slot st.availability d now st.cursor
    let st1 := { st with cursor := r.2 }
    match dispatch (sendOk d) st.td_send_retries false r.1 with
    | Except.error f => Except.error f
    | Except.ok _ => drainLoop sendOk now st1 rest

/-- Events that touch a worker entry of the availability map during a run:
the send-failure branch of `do_work` (sets `in_error`), a successful
dispatch (`assign_trigger_decision`, i.e. `add_assignment` through
`operator[]`), and an incoming completion token. -/
inductive DFOEvent where
  | sendFail (conn : String)
  | sendSuccess (a : AssignedTriggerDecision)
  | token (tok : Token) (now : Nat)

/-- One orchestrator step per event, mirroring the source:
`m_dataflow_availability[conn].set_in_error(true)` on send failure,
`m_dataflow_availability[conn].add_assignment(a)` on success (the
`NoSlotsAvailable` throw leaves the entry untouched), and
`receive_trigger_complete_token` for a token. -/
def dfoStep {M : Type} (dflt : TriggerRecordBuilderData M) (st : DFOState M) :
    DFOEvent → DFOState M
  | DFOEvent.sendFail conn =>
    let avail0 := opIndex conn dflt st.availability
    { st with availability := updateKey conn (fun w => w.set_in_error true) avail0 }
  | DFOEvent.sendSuccess a =>
    let avail0 := opIndex a.connection_name dflt st.availability
    { st with
        availability := updateKey a.connection_name (fun w => (w.add_assignment a).2) avail0 }
  | DFOEvent.token tok now => receive_trigger_complete_token dflt now st tok

/-! Serial operation sequences on one worker, for the capacity claim. -/

/-- One serial call on a worker: an `add_assignment` or an
`extract_assignment`. -/
inductive WOp where
  | add (a : AssignedTriggerDecision)
  | extract (tn : Nat)

/-- Post-state of one serial call. -/
def execOp {M : Type} (s : TriggerRecordBuilderData M) : WOp → TriggerRecordBuilderData M
  | WOp.add a => (s.add_assignment a).2
  | WOp.extract tn => (s.extract_assignment tn).2

/-- Post-state of a serial call sequence. -/
def execOps {M : Type} (s : TriggerRecordBuilderData M) (ops : List WOp) :
    TriggerRecordBuilderData M :=
  ops.foldl execOp s

/-- A call sequence is slot-gated when every `add_assignment` in it is made
in a state where `has_slot()` is true (the discipline the Dispatcher
follows: it only adds after `find_slot` returned the worker). -/
def gatedOps {M : Type} (s : TriggerRecordBuilderData M) : List WOp → Bool
  | [] => true
  | op :: rest =>
    (match op with
     | WOp.add _ => s.has_slot
     | WOp.extract _ => true) && gatedOps (execOp s op) rest

/-! Concrete instances used by the claim evaluations and witnesses. -/

/-- An assignment with the given trigger number, for concrete runs. -/
def mkA (tn : Nat) (conn : String) (t : Nat) : AssignedTriggerDecision :=
  { decision := { trigger_number := tn, run_number := 1 }
    connection_name := conn
    assigned_time := t }

/-- Worker for the capacity counterexample: `B = F = 1`. -/
def c9worker : TriggerRecordBuilderData Unit :=
  TriggerRecordBuilderData.ctorB Unit "w" 1 ()

/-- A gated serial sequence on `c9worker`. -/
def c9ops : List WOp := [WOp.add (mkA 1 "w" 0), WOp.extract 1, WOp.add (mkA 2 "w" 0)]

/-- Errored single worker for the drain fault. -/
def c3worker : TriggerRecordBuilderData Unit :=
  { TriggerRecordBuilderData.ctorB Unit "a" 1 () with in_error := true }

/-- Orchestrator state at shutdown with one errored worker. -/
def c3state : DFOState Unit :=
  { availability := [("a", c3worker)]
    cursor := 0
    run_number := 1
    received_tokens := 0
    metadata_function := none
    td_send_retries := 3 }

/-- Configured registry with the single worker "trb1". -/
def c2state : DFOState Unit :=
  { availability := [("trb1", TriggerRecordBuilderData.ctorB Unit "trb1" 2 ())]
    cursor := 0
    run_number := 7
    received_tokens := 0
    metadata_function := none
    td_send_retries := 1 }

/-- Token carrying the current run number but an unknown destination. -/
def c2token : Token :=
  { run_number := 7, trigger_number := 1, decision_destination := "zzz" }

/-- Worker with one in-flight assignment, for the completion witness:
trigger 5 assigned at time 10. -/
def c5worker : TriggerRecordBuilderData Nat :=
  { TriggerRecordBuilderData.ctorB Nat "c" 3 0 with inflight := [mkA 5 "c" 10] }

/-- Busy worker with empty inflight, for the busy-recheck witness. -/
def c10worker : TriggerRecordBuilderData Unit :=
  { TriggerRecordBuilderData.ctorB Unit "c" 2 () with is_busy := true }

/-- Errored worker, for the add-assignment witness. -/
def c6errWorker : TriggerRecordBuilderData Unit :=
  { TriggerRecordBuilderData.ctorB Unit "c" 2 () with in_error := true }

/-- Healthy worker, for the add-assignment witness. -/
def c6okWorker : TriggerRecordBuilderData Unit :=
  TriggerRecordBuilderData.ctorB Unit "c" 2 ()

/-- Worker whose latency window holds samples at times 1 and 3, for the
average-latency witness. -/
def c4worker : TriggerRecordBuilderData Unit :=
  { TriggerRecordBuilderData.ctorB Unit "c" 2 () with latency_info := [(1, 10), (3, 20)] }

/-- Two-worker registry where only the second worker has a slot. -/
def c8avail : List (String × TriggerRecordBuilderData Unit) :=
  [("a", { TriggerRecordBuilderData.ctorB Unit "a" 1 () with is_busy := true }),
   ("b", TriggerRecordBuilderData.ctorB Unit "b" 1 ())]

/-- Errored worker for the quarantine witness. -/
def c7worker : TriggerRecordBuilderData Unit :=
  { TriggerRecordBuilderData.ctorB Unit "a" 1 () with in_error := true }

/-- Orchestrator state holding only the errored worker. -/
def c7state : DFOState Unit :=
  { availability := [("a", c7worker)]
    cursor := 0
    run_number := 3
    received_tokens := 0
    metadata_function := none
    td_send_retries := 1 }

/-! Helper lemmas. -/

/-- Erasing the first match never lengthens the in-flight list. -/
theorem extractFirst_length_le : ∀ (l : List AssignedTriggerDecision) (tn : Nat),
    (extractFirst l tn).2.length ≤ l.length
  | [], _ => Nat.le_refl 0
  | a :: rest, tn => by
    unfold extractFirst
    by_cases h : a.decision.trigger_number = tn
    · simp [h]
    · simpa [h] using Nat.succ_le_succ (extractFirst_length_le rest tn)

/-- The erase loop returns the first match and the list with that first
match erased. -/
theorem extractFirst_eq_find_erase : ∀ (l : List AssignedTriggerDecision) (tn : Nat),
    (extractFirst l tn).1 = l.find? (fun a => a.decision.trigger_number = tn)
    ∧ (extractFirst l tn).2 = l.eraseP (fun a => a.decision.trigger_number = tn)
  | [], _ => ⟨rfl, rfl⟩
  | a :: rest, tn => by
    unfold extractFirst
    by_cases h : a.decision.trigger_number = tn
    · simp [h]
    · have ih := extractFirst_eq_find_erase rest tn
      simp [h, ih.1, ih.2]

/-- On a list descending in completion time, the stop-at-first-older scan
keeps exactly the in-range entries. -/
theorem takeWhile_eq_filter_of_desc (since : Nat) :
    ∀ l : List (Nat × Nat), l.Pairwise (fun x y => y.1 ≤ x.1) →
      l.takeWhile (fun e => !(e.1 < since)) = l.filter (fun e => !(e.1 < since))
  | [], _ => rfl
  | e :: rest, hp => by
    rcases List.pairwise_cons.mp hp with ⟨hhead, htail⟩
    by_cases h : e.1 < since
    · have hrest : rest.filter (fun x => !(x.1 < since)) = [] := by
        rw [List.filter_eq_nil_iff]
        intro x hx
        have hxe : x.1 ≤ e.1 := hhead x hx
        simp only [Bool.not_eq_true', decide_eq_false_iff_not, Decidable.not_not]
        omega
      simp [List.takeWhile_cons, List.filter_cons, h, hrest]
    · simp [List.takeWhile_cons, List.filter_cons, h,
        takeWhile_eq_filter_of_desc since rest htail]

/-! Claim theorems. -/

/-- C1: the claim fails on the code.  The three-argument constructor
initializes `m_free_threshold` from `busy_threshold`, so a worker built
with busy threshold 3 and free threshold 1 stores 3 as its free
threshold; holding three assignments it is busy, but extracting one of
them (size 2) already clears `is_busy` and `has_slot()` returns true,
where the claim requires the worker to stay busy until the size drops
below 1. -/
theorem claim_C1_free_threshold_bug :
    (TriggerRecordBuilderData.ctorBF Unit "c" 3 1 ()).map (fun w0 =>
      let s1 := execOps w0 [WOp.add (mkA 1 "c" 0), WOp.add (mkA 2 "c" 0),
        WOp.add (mkA 3 "c" 0), WOp.extract 3]
      (w0.free_threshold, s1.inflight.length, s1.is_busy, s1.has_slot))
    = Except.ok (3, 2, false, true) := by rfl

/-- C3: the claim fails on the code.  With one remaining decision and no
worker holding a slot, the shutdown drain calls `find_slot`, gets the
null assignment, and passes it straight to `dispatch`, which dereferences
it: the drain faults instead of discarding the decision. -/
theorem claim_C3_drain_null_deref :
    drainLoop (fun _ _ => true) 0 c3state [{ trigger_number := 7, run_number := 1 }]
    = Except.error Fault.nullDereference := by rfl

/-- C6: `add_assignment` fails with `NoSlotsAvailable` exactly when
`in_error` is set, and then leaves the whole worker state (in particular
`inflight` and `is_busy`) unchanged; otherwise it appends the assignment
to the end of `inflight` and `is_busy` ends up set exactly when the new
size reaches the busy threshold or the flag was already set — so the call
never clears it. -/
theorem claim_C6_add_assignment {M : Type} (s : TriggerRecordBuilderData M)
    (a : AssignedTriggerDecision) :
    ((s.add_assignment a).1 = some DfoErr.noSlotsAvailable ↔ s.in_error = true)
    ∧ (s.in_error = true → (s.add_assignment a).2 = s)
    ∧ (s.in_error = false →
        (s.add_assignment a).1 = none
        ∧ (s.add_assignment a).2.inflight = s.inflight ++ [a]
        ∧ ((s.add_assignment a).2.is_busy = true ↔
            s.busy_threshold ≤ s.inflight.length + 1 ∨ s.is_busy = true)) := by
  unfold TriggerRecordBuilderData.add_assignment
  cases he : s.in_error <;> simp [he]

/-- C6 witness: on an errored worker the call fails and changes nothing;
on a healthy worker it succeeds and appends. -/
theorem claim_C6_witness :
    (c6errWorker.add_assignment (mkA 1 "c" 0)).2 = c6errWorker
    ∧ (c6okWorker.add_assignment (mkA 1 "c" 0)).1 = none
    ∧ (c6okWorker.add_assignment (mkA 1 "c" 0)).2.inflight
      = c6okWorker.inflight ++ [mkA 1 "c" 0] :=
  ⟨(claim_C6_add_assignment c6errWorker (mkA 1 "c" 0)).2.1 rfl,
    ((claim_C6_add_assignment c6okWorker (mkA 1 "c" 0)).2.2 rfl).1,
    ((claim_C6_add_assignment c6okWorker (mkA 1 "c" 0)).2.2 rfl).2.1⟩

/-- C10: every `extract_assignment` call — also one that removes nothing —
re-evaluates the busy flag on return: when the resulting in-flight size is
below the stored free threshold, `is_busy` is false. -/
theorem claim_C10_extract_recheck {M : Type} (s : TriggerRecordBuilderData M) (tn : Nat)
    (h : ((s.extract_assignment tn).2).inflight.length
      < ((s.extract_assignment tn).2).free_threshold) :
    ((s.extract_assignment tn).2).is_busy = false := by
  have h2 : (extractFirst s.inflight tn).2.length < s.free_threshold := h
  show (if (extractFirst s.inflight tn).2.length < s.free_threshold
    then false else s.is_busy) = false
  exact if_pos h2

/-- C10 witness: a busy worker with empty in-flight list and free
threshold 2 is no longer busy after a no-match extraction. -/
theorem claim_C10_witness :
    ((c10worker.extract_assignment 5).2).inflight.length
      < ((c10worker.extract_assignment 5).2).free_threshold
    ∧ ((c10worker.extract_assignment 5).2).is_busy = false :=
  ⟨by decide, claim_C10_extract_recheck c10worker 5 (by decide)⟩

/-- C9 counterexample: the claim quantifies over every serial sequence of
raw `add_assignment` and `extract_assignment` calls, but `add_assignment`
checks only `in_error`, never the capacity: two adds from empty on a
worker with busy threshold 1 reach in-flight size 2 > 1. -/
theorem claim_C9_counterexample :
    ¬ ((execOps c9worker [WOp.add (mkA 1 "w" 0), WOp.add (mkA 2 "w" 0)]).inflight.length
      ≤ c9worker.busy_threshold) := by decide

/-- Invariant behind the amended capacity claim: under slot-gated adds the
busy threshold is stable, the in-flight size stays bounded by it, and the
busy flag covers saturation. -/
theorem gated_inv {M : Type} : ∀ (ops : List WOp) (s : TriggerRecordBuilderData M),
    s.free_threshold ≤ s.busy_threshold →
    s.inflight.length ≤ s.busy_threshold →
    (s.busy_threshold ≤ s.inflight.length → s.is_busy = true) →
    gatedOps s ops = true →
    (execOps s ops).busy_threshold = s.busy_threshold
    ∧ (execOps s ops).inflight.length ≤ s.busy_threshold
  | [], s, _, h1, _, _ => ⟨rfl, h1⟩
  | WOp.add a :: rest, s, hF, h1, h2, hg => by
    rw [gatedOps, Bool.and_eq_true] at hg
    obtain ⟨hslot, hg1⟩ := hg
    rw [TriggerRecordBuilderData.has_slot, Bool.and_eq_true] at hslot
    have hbusy : s.is_busy = false := by simpa using hslot.1
    have herr : s.in_error = false := by simpa using hslot.2
    have hlt : s.inflight.length < s.busy_threshold := by
      rcases Nat.lt_or_ge s.inflight.length s.busy_threshold with h | h
      · exact h
      · rw [h2 h] at hbusy; cases hbusy
    have e1 : (execOp s (WOp.add a)).inflight = s.inflight ++ [a] := by
      simp [execOp, TriggerRecordBuilderData.add_assignment, herr]
    have e2 : (execOp s (WOp.add a)).busy_threshold = s.busy_threshold := by
      simp [execOp, TriggerRecordBuilderData.add_assignment, herr]
    have e3 : (execOp s (WOp.add a)).free_threshold = s.free_threshold := by
      simp [execOp, TriggerRecordBuilderData.add_assignment, herr]
    have e4 : s.busy_threshold ≤ s.inflight.length + 1 →
        (execOp s (WOp.add a)).is_busy = true := by
      intro hle
      simp [execOp, TriggerRecordBuilderData.add_assignment, herr, hle]
    have hIH := gated_inv rest (execOp s (WOp.add a))
      (by rw [e2, e3]; exact hF)
      (by rw [e1, e2]; simpa using hlt)
      (by rw [e1, e2]; intro hle; exact e4 (by simpa using hle))
      hg1
    have hfold : execOps s (WOp.add a :: rest) = execOps (execOp s (WOp.add a)) rest := rfl
    rw [hfold, hIH.1, e2]
    exact ⟨rfl, by rw [← e2]; exact hIH.2⟩
  | WOp.extract tn :: rest, s, hF, h1, h2, hg => by
    rw [gatedOps, Bool.and_eq_true] at hg
    obtain ⟨-, hg1⟩ := hg
    have hlen : (extractFirst s.inflight tn).2.length ≤ s.inflight.length :=
      extractFirst_length_le s.inflight tn
    have e1 : (execOp s (WOp.extract tn)).inflight = (extractFirst s.inflight tn).2 := by
      simp [execOp, TriggerRecordBuilderData.extract_assignment]
    have e2 : (execOp s (WOp.extract tn)).busy_threshold = s.busy_threshold := by
      simp [execOp, TriggerRecordBuilderData.extract_assignment]
    have e3 : (execOp s (WOp.extract tn)).free_threshold = s.free_threshold := by
      simp [execOp, TriggerRecordBuilderData.extract_assignment]
    have e4 : (execOp s (WOp.extract tn)).is_busy
        = if (extractFirst s.inflight tn).2.length < s.free_threshold
          then false else s.is_busy := by
      simp [execOp, TriggerRecordBuilderData.extract_assignment]
    have hIH := gated_inv rest (execOp s (WOp.extract tn))
      (by rw [e2, e3]; exact hF)
      (by rw [e1, e2]; exact le_trans hlen h1)
      (by
        rw [e1, e2]
        intro hle
        rw [e4, if_neg (Nat.not_lt.mpr (le_trans hF hle))]
        exact h2 (le_trans hle hlen))
      hg1
    have hfold : execOps s (WOp.extract tn :: rest)
        = execOps (execOp s (WOp.extract tn)) rest := rfl
    rw [hfold, hIH.1, e2]
    exact ⟨rfl, by rw [← e2]; exact hIH.2⟩

/-- C9 (amended): starting from a worker with empty in-flight list, clear
busy flag and thresholds F ≤ B, 1 ≤ B, every serial sequence of
`add_assignment` and `extract_assignment` calls in which each add is made
only while `has_slot()` is true (the Dispatcher discipline) keeps
`inflight.size()` between 0 and B. -/
theorem claim_C9_amended_capacity {M : Type} (s0 : TriggerRecordBuilderData M)
    (ops : List WOp) (h0 : s0.inflight = []) (_hb : s0.is_busy = false)
    (hB : 1 ≤ s0.busy_threshold) (hF : s0.free_threshold ≤ s0.busy_threshold)
    (hg : gatedOps s0 ops = true) :
    (execOps s0 ops).inflight.length ≤ s0.busy_threshold := by
  have h1 : s0.inflight.length ≤ s0.busy_threshold := by simp [h0]
  have h2 : s0.busy_threshold ≤ s0.inflight.length → s0.is_busy = true := by
    intro hle
    rw [h0] at hle
    simp only [List.length_nil, Nat.le_zero] at hle
    rw [hle] at hB
    cases hB
  exact (gated_inv ops s0 hF h1 h2 hg).2

/-- C9 witness: a gated add-extract-add run on a worker with B = F = 1
ends within the bound. -/
theorem claim_C9_witness :
    gatedOps c9worker c9ops = true
    ∧ (execOps c9worker c9ops).inflight.length ≤ c9worker.busy_threshold :=
  ⟨by decide, claim_C9_amended_capacity c9worker c9ops (by decide) (by decide)
    (by decide) (by decide) (by decide)⟩

/-- C5: `complete_assignment` fails with `AssignedTriggerDecisionNotFound`
exactly when no in-flight assignment of the worker carries the trigger
number; on success it removes the first matching assignment, returns the
service time `now - assigned_time`, appends `(now, service_time)` to the
latency window evicting the oldest entry whenever the size would exceed
1000, and applies the metadata function to the worker metadata. -/
theorem claim_C5_complete_assignment {M : Type} (s : TriggerRecordBuilderData M)
    (tn now : Nat) (mfn : Option (M → M)) :
    ((s.complete_assignment tn now mfn).1 = none ↔
      ∀ a ∈ s.inflight, a.decision.trigger_number ≠ tn)
    ∧ (∀ t s1, s.complete_assignment tn now mfn = (some t, s1) →
        ∃ a, s.inflight.find? (fun b => b.decision.trigger_number = tn) = some a
          ∧ t = now - a.assigned_time
          ∧ s1.inflight = s.inflight.eraseP (fun b => b.decision.trigger_number = tn)
          ∧ s1.latency_info =
              (if 1000 < (s.latency_info ++ [(now, t)]).length
               then (s.latency_info ++ [(now, t)]).tail
               else s.latency_info ++ [(now, t)])
          ∧ s1.metadata = mfn.elim s.metadata (fun f => f s.metadata)) := by
  have hfe := extractFirst_eq_find_erase s.inflight tn
  rcases hE : extractFirst s.inflight tn with ⟨o, l2⟩
  rw [hE] at hfe
  cases o with
  | none =>
    have hres : (s.complete_assignment tn now mfn).1 = none := by
      simp [TriggerRecordBuilderData.complete_assignment,
        TriggerRecordBuilderData.extract_assignment, hE]
    constructor
    · rw [hres]
      simp only [true_iff]
      intro a ha
      have hnone : s.inflight.find? (fun b => b.decision.trigger_number = tn) = none :=
        hfe.1.symm
      have := List.find?_eq_none.mp hnone a ha
      simpa using this
    · intro t s1 h
      have : (some t : Option Nat) = none := by rw [← hres, h]
      cases this
  | some a =>
    have hres : s.complete_assignment tn now mfn
        = (some (now - a.assigned_time),
           { s with
             inflight := l2
             is_busy := if l2.length < s.free_threshold then false else s.is_busy
             latency_info :=
               if 1000 < (s.latency_info ++ [(now, now - a.assigned_time)]).length
               then (s.latency_info ++ [(now, now - a.assigned_time)]).tail
               else s.latency_info ++ [(now, now - a.assigned_time)]
             metadata := match mfn with | some f => f s.metadata | none => s.metadata }) := by
      simp [TriggerRecordBuilderData.complete_assignment,
        TriggerRecordBuilderData.extract_assignment, hE]
    have hfind : s.inflight.find? (fun b => b.decision.trigger_number = tn) = some a :=
      hfe.1.symm
    constructor
    · rw [hres]
      simp only [reduceCtorEq, false_iff, not_forall]
      refine ⟨a, List.mem_of_find?_eq_some hfind, ?_⟩
      have := List.find?_some hfind
      simpa using this
    · intro t s1 h
      rw [hres] at h
      have ht : t = now - a.assigned_time := by
        have h1 := congrArg Prod.fst h
        simpa using h1.symm
      have hinf : s1.inflight = l2 := by
        have h1 := congrArg
          (fun p : Option Nat × TriggerRecordBuilderData M => p.2.inflight) h
        simpa using h1.symm
      have hlat : s1.latency_info =
          (if 1000 < (s.latency_info ++ [(now, now - a.assigned_time)]).length
           then (s.latency_info ++ [(now, now - a.assigned_time)]).tail
           else s.latency_info ++ [(now, now - a.assigned_time)]) := by
        have h1 := congrArg
          (fun p : Option Nat × TriggerRecordBuilderData M => p.2.latency_info) h
        simpa using h1.symm
      have hmeta : s1.metadata = mfn.elim s.metadata (fun f => f s.metadata) := by
        have h1 := congrArg
          (fun p : Option Nat × TriggerRecordBuilderData M => p.2.metadata) h
        cases mfn <;> simpa using h1.symm
      refine ⟨a, hfind, ht, ?_, ?_, ?_⟩
      · rw [hinf]
        simpa using hfe.2
      · rw [hlat, ht]
      · rw [hmeta]

/-- C5 witness: completing trigger 5 on a worker that holds it, assigned at
time 10 and completed at time 100, yields service time 90, empties the
in-flight list, and applies the metadata function. -/
theorem claim_C5_witness :
    ∃ a, c5worker.inflight.find? (fun b => b.decision.trigger_number = 5) = some a
      ∧ (90 : Nat) = 100 - a.assigned_time
      ∧ ((c5worker.complete_assignment 5 100 (some fun n => n + 1)).2).inflight
        = c5worker.inflight.eraseP (fun b => b.decision.trigger_number = 5) :=
  ((claim_C5_complete_assignment c5worker 5 100 (some fun n => n + 1)).2 90
    ((c5worker.complete_assignment 5 100 (some fun n => n + 1)).2) rfl).elim
    (fun a ha => ⟨a, ha.1, ha.2.1, ha.2.2.1⟩)

/-- C4: when the latency window is ordered by completion time and at least
one entry is in range, `average_latency(since)` equals the sum of the
service times of exactly the entries with completion time ≥ since divided
by their count (the arithmetic mean in integer microseconds). -/
theorem claim_C4_average_latency {M : Type} (s : TriggerRecordBuilderData M) (since : Nat)
    (hsort : s.latency_info.Pairwise (fun x y => x.1 ≤ y.1))
    (_hne : ∃ e ∈ s.latency_info, since ≤ e.1) :
    s.average_latency since
      = ((s.latency_info.filter (fun e => since ≤ e.1)).map Prod.snd).sum
        / (s.latency_info.filter (fun e => since ≤ e.1)).length := by
  have hpred : (fun e : Nat × Nat => !(e.1 < since)) = (fun e : Nat × Nat => (since ≤ e.1 : Bool)) := by
    funext e
    by_cases h : e.1 < since
    · simp [h, Nat.not_le.mpr h]
    · simp [h, Nat.not_lt.mp h]
  have hrev : s.latency_info.reverse.Pairwise (fun x y => y.1 ≤ x.1) :=
    List.pairwise_reverse.mpr hsort
  unfold TriggerRecordBuilderData.average_latency
  rw [takeWhile_eq_filter_of_desc since _ hrev, hpred]
  have hperm := (List.reverse_perm s.latency_info).filter
    (fun e : Nat × Nat => (since ≤ e.1 : Bool))
  rw [(hperm.map Prod.snd).sum_eq, hperm.length_eq]

/-- C4 witness: window [(1,10),(3,20)], since 2: only (3,20) is in range
and the result is 20. -/
theorem claim_C4_witness :
    c4worker.latency_info.Pairwise (fun x y => x.1 ≤ y.1)
    ∧ c4worker.average_latency 2
      = ((c4worker.latency_info.filter (fun e => (2 : Nat) ≤ e.1)).map Prod.snd).sum
        / (c4worker.latency_info.filter (fun e => (2 : Nat) ≤ e.1)).length :=
  ⟨by decide, claim_C4_average_latency c4worker 2 (by decide) ⟨(3, 20), by decide, by decide⟩⟩

/-- Rewriting a mapped value leaves the key list unchanged. -/
theorem updateKey_keys {W : Type} (k : String) (f : W → W) :
    ∀ l : List (String × W), (updateKey k f l).map Prod.fst = l.map Prod.fst
  | [] => rfl
  | (k1, w) :: rest => by
    unfold updateKey
    by_cases h : k = k1 <;> simp [h, updateKey_keys k f rest]

/-- After `operator[]` the key is present. -/
theorem opIndex_mem {W : Type} (k : String) (d : W) :
    ∀ l : List (String × W), k ∈ (opIndex k d l).map Prod.fst
  | [] => by simp [opIndex]
  | (k1, w) :: rest => by
    unfold opIndex
    by_cases h : k = k1
    · simp [h]
    · by_cases h2 : k < k1 <;> simp [h, h2, opIndex_mem k d rest]

/-- Using `operator[]` on an absent key grows the map by one entry. -/
theorem opIndex_length_of_not_mem {W : Type} (k : String) (d : W) :
    ∀ l : List (String × W), k ∉ l.map Prod.fst →
      (opIndex k d l).length = l.length + 1
  | [], _ => rfl
  | (k1, w) :: rest, hnm => by
    have h1 : ¬ k = k1 := by
      intro he
      exact hnm (by simp [he])
    have h2 : k ∉ rest.map Prod.fst := by
      intro hm
      exact hnm (by simp [hm])
    unfold opIndex
    by_cases h3 : k < k1 <;>
      simp [h1, h3, opIndex_length_of_not_mem k d rest h2]

/-- The token transformation of the availability map never changes the key
list beyond the `operator[]` access itself. -/
theorem tokenAvail_keys {M : Type} (dflt : TriggerRecordBuilderData M) (now : Nat)
    (mfn : Option (M → M)) (avail : List (String × TriggerRecordBuilderData M))
    (tok : Token) :
    (tokenAvail dflt now mfn avail tok).map Prod.fst
      = (opIndex tok.decision_destination dflt avail).map Prod.fst := by
  simp only [tokenAvail]
  split
  · rw [updateKey_keys, updateKey_keys]
  · rw [updateKey_keys]

/-- C2: the claim fails on the code.  A matching-run token whose
`decision_destination` names no configured worker is not dropped by a
lookup check: the availability map is accessed through `operator[]`, which
default-inserts a WorkerLoad entry under the unknown key — whatever the
default-constructed worker contains, the registry key set grows by the
unknown key. -/
theorem claim_C2_unknown_destination_inserts (dflt : TriggerRecordBuilderData Unit) :
    "zzz" ∉ c2state.availability.map Prod.fst
    ∧ "zzz" ∈ (receive_trigger_complete_token dflt 0 c2state c2token).availability.map Prod.fst
    ∧ (receive_trigger_complete_token dflt 0 c2state c2token).availability.length
      = c2state.availability.length + 1 := by
  have hnm : "zzz" ∉ c2state.availability.map Prod.fst := by decide
  have hk := tokenAvail_keys dflt 0 c2state.metadata_function c2state.availability c2token
  refine ⟨hnm, ?_, ?_⟩
  · show "zzz" ∈ (tokenAvail dflt 0 c2state.metadata_function c2state.availability
      c2token).map Prod.fst
    rw [hk]
    exact opIndex_mem "zzz" dflt c2state.availability
  · show (tokenAvail dflt 0 c2state.metadata_function c2state.availability c2token).length
      = c2state.availability.length + 1
    have hlenk := congrArg List.length hk
    simp only [List.length_map] at hlenk
    rw [hlenk]
    exact opIndex_length_of_not_mem "zzz" dflt c2state.availability hnm

/-- Core lemma for the round-robin scan: with `r` tries remaining and the
iterator at position `cursor`, the loop inspects exactly the positions
`(cursor + 1 + i) % size` for `i < r` in order, stops at the first with a
free slot — returning that worker's assignment with the cursor left there
— and returns the null assignment when none of them has a slot. -/
theorem find_slot_loop_spec {M : Type} (avail : List (String × TriggerRecordBuilderData M))
    (d : TriggerDecision) (now : Nat) :
    ∀ (r cursor : Nat), cursor < avail.length →
      (∀ j, ((List.range r).map (fun i => (cursor + 1 + i) % avail.length)).find?
          (fun i => hasSlotAt avail i) = some j →
        ∃ kw, avail[j]? = some kw ∧ kw.2.has_slot = true
          ∧ find_slot_loop avail d now cursor r = (some (kw.2.make_assignment d now), j))
      ∧ (((List.range r).map (fun i => (cursor + 1 + i) % avail.length)).find?
          (fun i => hasSlotAt avail i) = none →
        (find_slot_loop avail d now cursor r).1 = none)
  | 0, cursor, _ => by
    refine ⟨?_, ?_⟩
    · intro j hj
      simp [List.range_zero] at hj
    · intro _
      rfl
  | r + 1, cursor, hc => by
    have hN : 0 < avail.length := Nat.lt_of_le_of_lt (Nat.zero_le _) hc
    have hc1 : (if cursor + 1 = avail.length then 0 else cursor + 1)
        = (cursor + 1) % avail.length := by
      by_cases h : cursor + 1 = avail.length
      · rw [if_pos h, h, Nat.mod_self]
      · rw [if_neg h, Nat.mod_eq_of_lt (Nat.lt_of_le_of_ne (Nat.succ_le_of_lt hc) h)]
    have hc1lt : (cursor + 1) % avail.length < avail.length := Nat.mod_lt _ hN
    have hseq : (List.range (r + 1)).map (fun i => (cursor + 1 + i) % avail.length)
        = ((cursor + 1) % avail.length)
          :: (List.range r).map (fun i =>
              ((cursor + 1) % avail.length + 1 + i) % avail.length) := by
      rw [List.range_succ_eq_map, List.map_cons, List.map_map]
      refine congrArg₂ List.cons (by simp) (List.map_congr_left ?_)
      intro i _
      simp only [Function.comp_apply, Nat.succ_eq_add_one]
      conv_rhs => rw [Nat.add_assoc ((cursor + 1) % avail.length) 1 i, Nat.mod_add_mod]
      congr 1
      omega
    rw [hseq]
    by_cases hslot : hasSlotAt avail ((cursor + 1) % avail.length)
    · rcases hkw : avail[(cursor + 1) % avail.length]? with _ | kw
      · exfalso
        simp [hasSlotAt, hkw] at hslot
      · have hks : kw.2.has_slot = true := by
          simpa [hasSlotAt, hkw] using hslot
        have hloop : find_slot_loop avail d now cursor (r + 1)
            = (some (kw.2.make_assignment d now), (cursor + 1) % avail.length) := by
          simp only [find_slot_loop]
          rw [hc1, hkw]
          simp [hks]
        refine ⟨?_, ?_⟩
        · intro j hj
          rw [List.find?_cons_of_pos _ hslot] at hj
          obtain rfl := Option.some.inj hj
          exact ⟨kw, hkw, hks, hloop⟩
        · intro hnone
          rw [List.find?_cons_of_pos _ hslot] at hnone
          cases hnone
    · rcases hkw : avail[(cursor + 1) % avail.length]? with _ | kw
      · exfalso
        rw [List.getElem?_eq_none_iff] at hkw
        omega
      · have hks : kw.2.has_slot = false := by
          have := hslot
          simp [hasSlotAt, hkw] at this
          exact this
        have hloop : find_slot_loop avail d now cursor (r + 1)
            = find_slot_loop avail d now ((cursor + 1) % avail.length) r := by
          simp only [find_slot_loop]
          rw [hc1, hkw]
          simp [hks]
        have hIH := find_slot_loop_spec avail d now r ((cursor + 1) % avail.length) hc1lt
        refine ⟨?_, ?_⟩
        · intro j hj
          rw [List.find?_cons_of_neg _ hslot] at hj
          obtain ⟨kw2, h1, h2, h3⟩ := hIH.1 j hj
          exact ⟨kw2, h1, h2, by rw [hloop]; exact h3⟩
        · intro hnone
          rw [List.find?_cons_of_neg _ hslot] at hnone
          rw [hloop]
          exact hIH.2 hnone

/-- C8: for every decision, `find_slot` examines at most N workers (N the
registry size) round-robin starting from the cursor successor, advancing
the cursor at each step; it returns an assignment built by the first
examined worker whose `has_slot()` is true, leaving the cursor on it, or
no assignment when none of the N examined positions has a slot — a
deterministic function of the registry contents and the incoming cursor. -/
theorem claim_C8_find_slot {M : Type} (avail : List (String × TriggerRecordBuilderData M))
    (d : TriggerDecision) (now : Nat) (cursor : Nat) (hc : cursor < avail.length) :
    (∀ j, ((List.range avail.length).map (fun i => (cursor + 1 + i) % avail.length)).find?
        (fun i => hasSlotAt avail i) = some j →
      ∃ kw, avail[j]? = some kw ∧ kw.2.has_slot = true
        ∧ find_slot avail d now cursor = (some (kw.2.make_assignment d now), j))
    ∧ (((List.range avail.length).map (fun i => (cursor + 1 + i) % avail.length)).find?
        (fun i => hasSlotAt avail i) = none →
      (find_slot avail d now cursor).1 = none) :=
  find_slot_loop_spec avail d now avail.length cursor hc

/-- C8 witness: with two workers, the first busy, and the cursor on the
first, the scan picks the second worker and moves the cursor to it. -/
theorem claim_C8_witness :
    ∃ kw, c8avail[1]? = some kw ∧ kw.2.has_slot = true
      ∧ find_slot c8avail { trigger_number := 9, run_number := 1 } 0 0
        = (some (kw.2.make_assignment { trigger_number := 9, run_number := 1 } 0), 1) :=
  (claim_C8_find_slot c8avail { trigger_number := 9, run_number := 1 } 0 0 (by decide)).1 1
    (by decide)

/-- Rewriting under a key changes exactly that lookup, by the function. -/
theorem lookupKey_updateKey_self {W : Type} (k : String) (f : W → W) :
    ∀ l : List (String × W), lookupKey k (updateKey k f l) = (lookupKey k l).map f
  | [] => rfl
  | (k1, w) :: rest => by
    by_cases h : k = k1 <;>
      simp [updateKey, lookupKey, h, lookupKey_updateKey_self k f rest]

/-- Rewriting under a different key leaves a lookup unchanged. -/
theorem lookupKey_updateKey_other {W : Type} (k k2 : String) (f : W → W)
    (hne : k ≠ k2) :
    ∀ l : List (String × W), lookupKey k (updateKey k2 f l) = lookupKey k l
  | [] => rfl
  | (k1, w) :: rest => by
    by_cases h2 : k2 = k1
    · have h : k ≠ k1 := h2 ▸ hne
      simp [updateKey, lookupKey, h2, h]
    · by_cases h : k = k1 <;>
        simp [updateKey, lookupKey, h2, h, lookupKey_updateKey_other k k2 f hne rest]

/-- Using `operator[]` under a different key leaves a lookup unchanged. -/
theorem lookupKey_opIndex_other {W : Type} (k k2 : String) (d : W)
    (hne : k ≠ k2) :
    ∀ l : List (String × W), lookupKey k (opIndex k2 d l) = lookupKey k l
  | [] => by simp [opIndex, lookupKey, hne]
  | (k1, w) :: rest => by
    by_cases h2 : k2 = k1
    · simp [opIndex, h2]
    · by_cases h3 : k2 < k1
      · simp [opIndex, lookupKey, h2, h3, hne]
      · by_cases h : k = k1 <;>
          simp [opIndex, lookupKey, h2, h3, h, lookupKey_opIndex_other k k2 d hne rest]

/-- After `operator[]` the key maps to something. -/
theorem lookupKey_opIndex_self {W : Type} (k : String) (d : W) :
    ∀ l : List (String × W), ∃ w0, lookupKey k (opIndex k d l) = some w0
  | [] => ⟨d, by simp [opIndex, lookupKey]⟩
  | (k1, w) :: rest => by
    by_cases h : k = k1
    · exact ⟨w, by simp [opIndex, lookupKey, h]⟩
    · by_cases h2 : k < k1
      · exact ⟨d, by simp [opIndex, lookupKey, h, h2]⟩
      · obtain ⟨w0, hw0⟩ := lookupKey_opIndex_self k d rest
        exact ⟨w0, by simp [opIndex, lookupKey, h, h2, hw0]⟩

/-- A successful lookup witnesses key membership. -/
theorem lookupKey_isSome_mem {W : Type} (k : String) :
    ∀ (l : List (String × W)) (w : W), lookupKey k l = some w → k ∈ l.map Prod.fst
  | [], w, h => by simp [lookupKey] at h
  | (k1, w1) :: rest, w, h => by
    by_cases he : k = k1
    · simp [he]
    · have h2 : lookupKey k rest = some w := by simpa [lookupKey, he] using h
      simp [lookupKey_isSome_mem k rest w h2]

/-- On a key-sorted map, `operator[]` of a present key is the identity. -/
theorem opIndex_of_present_sorted {W : Type} (k : String) (d : W) :
    ∀ (l : List (String × W)) (w : W),
      List.Pairwise (· < ·) (l.map Prod.fst) → lookupKey k l = some w →
      opIndex k d l = l
  | [], w, _, hlk => by simp [lookupKey] at hlk
  | (k1, w1) :: rest, w, hp, hlk => by
    rw [List.map_cons, List.pairwise_cons] at hp
    obtain ⟨hhead, htail⟩ := hp
    by_cases h : k = k1
    · simp [opIndex, h]
    · have hlk2 : lookupKey k rest = some w := by simpa [lookupKey, h] using hlk
      have hmem : k ∈ rest.map Prod.fst := lookupKey_isSome_mem k rest w hlk2
      have hgt : k1 < k := hhead k hmem
      have hnlt : ¬ k < k1 := fun hlt => absurd (lt_trans hlt hgt) (lt_irrefl k)
      simp [opIndex, h, hnlt, opIndex_of_present_sorted k d rest w htail hlk2]

/-- Every key of the map after `operator[]` is the accessed key or an old
key. -/
theorem mem_keys_opIndex {W : Type} (k : String) (d : W) :
    ∀ (l : List (String × W)) (y : String),
      y ∈ (opIndex k d l).map Prod.fst → y = k ∨ y ∈ l.map Prod.fst
  | [], y, h => by
    simp [opIndex] at h
    exact Or.inl h
  | (k1, w) :: rest, y, h => by
    by_cases h1 : k = k1
    · simp only [opIndex, if_pos h1] at h
      exact Or.inr h
    · by_cases h2 : k < k1
      · simp only [opIndex, if_neg h1, if_pos h2, List.map_cons, List.mem_cons] at h
        rcases h with h | h | h
        · exact Or.inl h
        · exact Or.inr (by simp [h])
        · exact Or.inr (by simp [h])
      · simp only [opIndex, if_neg h1, if_neg h2, List.map_cons, List.mem_cons] at h
        rcases h with h | h
        · exact Or.inr (by simp [h])
        · rcases mem_keys_opIndex k d rest y h with h3 | h3
          · exact Or.inl h3
          · exact Or.inr (by simp [h3])

/-- Using `operator[]` keeps the key list strictly sorted. -/
theorem sortedK_opIndex {W : Type} (k : String) (d : W) :
    ∀ l : List (String × W), List.Pairwise (· < ·) (l.map Prod.fst) →
      List.Pairwise (· < ·) ((opIndex k d l).map Prod.fst)
  | [], _ => by simp [opIndex]
  | (k1, w) :: rest, hp => by
    rw [List.map_cons, List.pairwise_cons] at hp
    obtain ⟨hhead, htail⟩ := hp
    by_cases h1 : k = k1
    · simp only [opIndex, if_pos h1, List.map_cons, List.pairwise_cons]
      exact ⟨hhead, htail⟩
    · by_cases h2 : k < k1
      · simp only [opIndex, if_neg h1, if_pos h2, List.map_cons, List.pairwise_cons,
          List.mem_cons]
        refine ⟨?_, hhead, htail⟩
        intro y hy
        rcases hy with rfl | hy
        · exact h2
        · exact lt_trans h2 (hhead y hy)
      · have h3 : k1 < k := by
          rcases lt_trichotomy k k1 with h | h | h
          · exact absurd h h2
          · exact absurd h h1
          · exact h
        simp only [opIndex, if_neg h1, if_neg h2, List.map_cons, List.pairwise_cons]
        constructor
        · intro y hy
          rcases mem_keys_opIndex k d rest y hy with rfl | hmem
          · exact h3
          · exact hhead y hmem
        · exact sortedK_opIndex k d rest htail

/-- The token transformation leaves lookups of other keys unchanged. -/
theorem tokenAvail_lookup_other {M : Type} (dflt : TriggerRecordBuilderData M)
    (now : Nat) (mfn : Option (M → M))
    (avail : List (String × TriggerRecordBuilderData M)) (tok : Token)
    (k : String) (h : k ≠ tok.decision_destination) :
    lookupKey k (tokenAvail dflt now mfn avail tok) = lookupKey k avail := by
  simp only [tokenAvail]
  split
  · rw [lookupKey_updateKey_other k _ _ h, lookupKey_updateKey_other k _ _ h,
      lookupKey_opIndex_other k _ _ h]
  · rw [lookupKey_updateKey_other k _ _ h, lookupKey_opIndex_other k _ _ h]

/-- After the token transformation, the destination worker exists and its
`in_error` flag is clear — the receiver clears a set flag and leaves a
clear one. -/
theorem tokenAvail_clears {M : Type} (dflt : TriggerRecordBuilderData M) (now : Nat)
    (mfn : Option (M → M)) (avail : List (String × TriggerRecordBuilderData M))
    (tok : Token) :
    ∃ w3, lookupKey tok.decision_destination (tokenAvail dflt now mfn avail tok) = some w3
      ∧ w3.in_error = false := by
  obtain ⟨w0, hw0⟩ := lookupKey_opIndex_self tok.decision_destination dflt avail
  simp only [tokenAvail, hw0, Option.getD_some, lookupKey_updateKey_self, Option.map_some']
  split
  · rw [lookupKey_updateKey_self, lookupKey_updateKey_self, hw0]
    exact ⟨_, rfl, rfl⟩
  · rename_i hne
    rw [lookupKey_updateKey_self, hw0]
    exact ⟨_, rfl, by simpa using hne⟩

/-- No event changes the run number. -/
theorem dfoStep_run_number {M : Type} (dflt : TriggerRecordBuilderData M)
    (st : DFOState M) (ev : DFOEvent) :
    (dfoStep dflt st ev).run_number = st.run_number := by
  cases ev with
  | sendFail conn => rfl
  | sendSuccess a => rfl
  | token tok now =>
    simp only [dfoStep, receive_trigger_complete_token]
    split <;> rfl

/-- Every event keeps the key list strictly sorted. -/
theorem sortedK_dfoStep {M : Type} (dflt : TriggerRecordBuilderData M)
    (st : DFOState M) (ev : DFOEvent)
    (h : List.Pairwise (· < ·) (st.availability.map Prod.fst)) :
    List.Pairwise (· < ·) (((dfoStep dflt st ev).availability).map Prod.fst) := by
  cases ev with
  | sendFail conn =>
    show List.Pairwise (· < ·)
      ((updateKey conn (fun x => x.set_in_error true)
        (opIndex conn dflt st.availability)).map Prod.fst)
    rw [updateKey_keys]
    exact sortedK_opIndex conn dflt st.availability h
  | sendSuccess a =>
    show List.Pairwise (· < ·)
      ((updateKey a.connection_name (fun x => (x.add_assignment a).2)
        (opIndex a.connection_name dflt st.availability)).map Prod.fst)
    rw [updateKey_keys]
    exact sortedK_opIndex a.connection_name dflt st.availability h
  | token tok now =>
    simp only [dfoStep, receive_trigger_complete_token]
    split
    · show List.Pairwise (· < ·)
        ((tokenAvail dflt now st.metadata_function st.availability tok).map Prod.fst)
      rw [tokenAvail_keys]
      exact sortedK_opIndex tok.decision_destination dflt st.availability h
    · exact h

/-- Completion does not touch the error flag. -/
theorem complete_assignment_in_error {M : Type} (s : TriggerRecordBuilderData M)
    (tn now : Nat) (mfn : Option (M → M)) :
    ((s.complete_assignment tn now mfn).2).in_error = s.in_error := by
  rcases hE : extractFirst s.inflight tn with ⟨o, l2⟩
  cases o <;> simp [TriggerRecordBuilderData.complete_assignment,
    TriggerRecordBuilderData.extract_assignment, hE]

/-- Adding to an errored worker throws before mutating. -/
theorem add_assignment_of_in_error {M : Type} (s : TriggerRecordBuilderData M)
    (a : AssignedTriggerDecision) (h : s.in_error = true) :
    (s.add_assignment a).2 = s := by
  simp [TriggerRecordBuilderData.add_assignment, h]

/-- An errored worker reports no slot. -/
theorem has_slot_false_of_in_error {M : Type} (w : TriggerRecordBuilderData M)
    (h : w.in_error = true) : w.has_slot = false := by
  simp [TriggerRecordBuilderData.has_slot, h]

/-- One-event preservation of a set `in_error` flag: only a matching-run
token addressed to the worker can clear it. -/
theorem inError_step {M : Type} (dflt : TriggerRecordBuilderData M) (conn : String)
    (st : DFOState M) (ev : DFOEvent)
    (hsort : List.Pairwise (· < ·) (st.availability.map Prod.fst))
    (hev : ∀ tok now2, ev = DFOEvent.token tok now2 →
      tok.decision_destination = conn → tok.run_number ≠ st.run_number)
    (h : ∃ w, lookupKey conn st.availability = some w ∧ w.in_error = true) :
    ∃ w1, lookupKey conn ((dfoStep dflt st ev).availability) = some w1
      ∧ w1.in_error = true := by
  obtain ⟨w, hw, hwe⟩ := h
  cases ev with
  | sendFail conn2 =>
    show ∃ w1, lookupKey conn (updateKey conn2 (fun x => x.set_in_error true)
      (opIndex conn2 dflt st.availability)) = some w1 ∧ w1.in_error = true
    by_cases hc : conn = conn2
    · subst hc
      obtain ⟨w0, hw0⟩ := lookupKey_opIndex_self conn dflt st.availability
      rw [lookupKey_updateKey_self, hw0]
      exact ⟨w0.set_in_error true, rfl, rfl⟩
    · rw [lookupKey_updateKey_other conn conn2 _ hc,
        lookupKey_opIndex_other conn conn2 dflt hc, hw]
      exact ⟨w, rfl, hwe⟩
  | sendSuccess a =>
    show ∃ w1, lookupKey conn (updateKey a.connection_name (fun x => (x.add_assignment a).2)
      (opIndex a.connection_name dflt st.availability)) = some w1 ∧ w1.in_error = true
    by_cases hc : conn = a.connection_name
    · rw [← hc, lookupKey_updateKey_self,
        opIndex_of_present_sorted conn dflt st.availability w hsort hw, hw]
      refine ⟨(w.add_assignment a).2, rfl, ?_⟩
      rw [add_assignment_of_in_error w a hwe]
      exact hwe
    · rw [lookupKey_updateKey_other conn _ _ hc,
        lookupKey_opIndex_other conn _ dflt hc, hw]
      exact ⟨w, rfl, hwe⟩
  | token tok now2 =>
    simp only [dfoStep, receive_trigger_complete_token]
    split
    · rename_i hrun
      have hdest : tok.decision_destination ≠ conn := by
        intro hd
        exact hev tok now2 rfl hd hrun
      show ∃ w1, lookupKey conn
        (tokenAvail dflt now2 st.metadata_function st.availability tok) = some w1
        ∧ w1.in_error = true
      rw [tokenAvail_lookup_other dflt now2 st.metadata_function st.availability tok conn
        hdest.symm, hw]
      exact ⟨w, rfl, hwe⟩
    · exact ⟨w, hw, hwe⟩

/-- Multi-event persistence of a set `in_error` flag along any event
sequence containing no matching-run token addressed to the worker. -/
theorem inError_persists {M : Type} (dflt : TriggerRecordBuilderData M) (conn : String)
    (r : Nat) :
    ∀ (evs : List DFOEvent) (st : DFOState M),
      st.run_number = r →
      List.Pairwise (· < ·) (st.availability.map Prod.fst) →
      (∀ ev ∈ evs, ∀ tok now2, ev = DFOEvent.token tok now2 →
        tok.decision_destination = conn → tok.run_number ≠ r) →
      (∃ w, lookupKey conn st.availability = some w ∧ w.in_error = true) →
      (evs.foldl (dfoStep dflt) st).run_number = r
      ∧ List.Pairwise (· < ·) (((evs.foldl (dfoStep dflt) st).availability).map Prod.fst)
      ∧ ∃ w1, lookupKey conn ((evs.foldl (dfoStep dflt) st).availability) = some w1
          ∧ w1.in_error = true
  | [], st, hrun, hsort, _, h => ⟨hrun, hsort, h⟩
  | ev :: rest, st, hrun, hsort, hevs, h => by
    have hev1 : ∀ tok now2, ev = DFOEvent.token tok now2 →
        tok.decision_destination = conn → tok.run_number ≠ st.run_number := by
      intro tok now2 heq hd
      rw [hrun]
      exact hevs ev (by simp) tok now2 heq hd
    have hstep := inError_step dflt conn st ev hsort hev1 h
    have hrun1 : (dfoStep dflt st ev).run_number = r := by
      rw [dfoStep_run_number, hrun]
    have hsort1 := sortedK_dfoStep dflt st ev hsort
    have hfold : (ev :: rest).foldl (dfoStep dflt) st
        = rest.foldl (dfoStep dflt) (dfoStep dflt st ev) := rfl
    rw [hfold]
    exact inError_persists dflt conn r rest (dfoStep dflt st ev) hrun1 hsort1
      (fun e hmem => hevs e (List.mem_cons_of_mem ev hmem)) hstep

/-- A successful scan returns the assignment of the worker at the final
cursor position, and that worker has a slot. -/
theorem find_slot_loop_some {M : Type} (avail : List (String × TriggerRecordBuilderData M))
    (d : TriggerDecision) (now : Nat) :
    ∀ (r cursor : Nat) (a : AssignedTriggerDecision) (j : Nat),
      find_slot_loop avail d now cursor r = (some a, j) →
      ∃ kw, avail[j]? = some kw ∧ kw.2.has_slot = true
        ∧ a = kw.2.make_assignment d now
  | 0, cursor, a, j, h => by
    have h1 : (none : Option AssignedTriggerDecision) = some a := congrArg Prod.fst h
    cases h1
  | r + 1, cursor, a, j, h => by
    rcases hkw : avail[(if cursor + 1 = avail.length then 0 else cursor + 1)]? with _ | kw
    · simp only [find_slot_loop] at h
      rw [hkw] at h
      have h1 : (none : Option AssignedTriggerDecision) = some a := congrArg Prod.fst h
      cases h1
    · simp only [find_slot_loop] at h
      rw [hkw] at h
      by_cases hs : kw.2.has_slot
      · simp only [hs, if_true, Prod.mk.injEq, Option.some.injEq] at h
        obtain ⟨ha, hj⟩ := h
        exact ⟨kw, by rw [← hj]; exact hkw, hs, ha.symm⟩
      · simp only [hs] at h
        simp only [Bool.false_eq_true, if_false] at h
        exact find_slot_loop_some avail d now r _ a j h

/-- Looking up a position of a nodup-keyed map finds the same value as the
key lookup. -/
theorem getElem?_key_lookup {W : Type} (conn : String) (w2 : W) :
    ∀ (l : List (String × W)) (j : Nat),
      (l.map Prod.fst).Nodup → l[j]? = some (conn, w2) →
      lookupKey conn l = some w2
  | [], j, _, hget => by simp at hget
  | (k1, w1) :: rest, 0, _, hget => by
    simp only [List.getElem?_cons_zero, Option.some.injEq, Prod.mk.injEq] at hget
    obtain ⟨hk, hw⟩ := hget
    simp [lookupKey, hk, hw]
  | (k1, w1) :: rest, j + 1, hnd, hget => by
    simp only [List.getElem?_cons_succ] at hget
    rw [List.map_cons, List.nodup_cons] at hnd
    obtain ⟨hk1, hnd2⟩ := hnd
    have hmem : (conn, w2) ∈ rest := List.getElem?_mem hget
    have hconn : conn ∈ rest.map Prod.fst := List.mem_map_of_mem Prod.fst hmem
    have hne : conn ≠ k1 := by
      intro he
      exact hk1 (he ▸ hconn)
    simp only [lookupKey, if_neg hne]
    exact getElem?_key_lookup conn w2 rest j hnd2 hget

/-- C7: once the send-failure branch of the dispatcher has set a worker's
`in_error` flag, the flag stays set — `has_slot()` stays false and
`find_slot` never selects that worker — across every following event that
is not a matching-run completion token addressed to it; and processing a
matching-run token addressed to it leaves the worker with `in_error`
cleared. -/
theorem claim_C7_error_quarantine {M : Type} (dflt : TriggerRecordBuilderData M)
    (st : DFOState M) (conn : String) (w : TriggerRecordBuilderData M)
    (evs : List DFOEvent)
    (hsort : List.Pairwise (· < ·) (st.availability.map Prod.fst))
    (hw : lookupKey conn st.availability = some w)
    (he : w.in_error = true)
    (hevs : ∀ ev ∈ evs, ∀ tok now2, ev = DFOEvent.token tok now2 →
      tok.decision_destination = conn → tok.run_number ≠ st.run_number) :
    (∃ w1, lookupKey conn ((evs.foldl (dfoStep dflt) st).availability) = some w1
      ∧ w1.in_error = true ∧ w1.has_slot = false)
    ∧ (∀ d now2 cur a j,
        find_slot ((evs.foldl (dfoStep dflt) st).availability) d now2 cur = (some a, j) →
        ∀ w2, ((evs.foldl (dfoStep dflt) st).availability)[j]? ≠ some (conn, w2))
    ∧ (∀ tok now3, tok.decision_destination = conn → tok.run_number = st.run_number →
        ∃ w3, lookupKey conn ((receive_trigger_complete_token dflt now3
            (evs.foldl (dfoStep dflt) st) tok).availability) = some w3
          ∧ w3.in_error = false) := by
  obtain ⟨hrun, hsort1, w1, hlk1, he1⟩ :=
    inError_persists dflt conn st.run_number evs st rfl hsort hevs ⟨w, hw, he⟩
  refine ⟨⟨w1, hlk1, he1, has_slot_false_of_in_error w1 he1⟩, ?_, ?_⟩
  · intro d now2 cur a j hfind w2 hget
    obtain ⟨kw, hkw, hks, -⟩ :=
      find_slot_loop_some ((evs.foldl (dfoStep dflt) st).availability) d now2
        ((evs.foldl (dfoStep dflt) st).availability).length cur a j hfind
    rw [hget] at hkw
    obtain rfl := Option.some.inj hkw
    have hnd : (((evs.foldl (dfoStep dflt) st).availability).map Prod.fst).Nodup :=
      hsort1.imp ne_of_lt
    have hlk2 : lookupKey conn ((evs.foldl (dfoStep dflt) st).availability) = some w2 :=
      getElem?_key_lookup conn w2 _ j hnd hget
    rw [hlk1] at hlk2
    obtain rfl := Option.some.inj hlk2
    rw [has_slot_false_of_in_error w1 he1] at hks
    cases hks
  · intro tok now3 hdest hrun3
    simp only [receive_trigger_complete_token]
    split
    · obtain ⟨w3, h3, h3e⟩ := tokenAvail_clears dflt now3
        ((evs.foldl (dfoStep dflt) st).metadata_function)
        ((evs.foldl (dfoStep dflt) st).availability) tok
      rw [hdest] at h3
      exact ⟨w3, h3, h3e⟩
    · rename_i hng
      exact absurd (hrun3.trans hrun.symm) hng

/-- C7 witness: a worker already in error, hit by another send failure,
still has the flag set and no slot. -/
theorem claim_C7_witness :
    ∃ w1, lookupKey "a" ((([DFOEvent.sendFail "a"]).foldl (dfoStep c7worker) c7state).availability)
      = some w1 ∧ w1.in_error = true ∧ w1.has_slot = false :=
  (claim_C7_error_quarantine c7worker c7state "a" c7worker [DFOEvent.sendFail "a"]
    (by simp [c7state]) (by rfl) (by rfl)
    (by
      intro ev hev tok now2 heq
      rw [List.mem_singleton] at hev
      subst hev
      cases heq)).1
